import Mathlib

/-!
Shallow embedding of the row reconciliation engine of the spreadsheet
comparison tool (function compare_dataframes, src/main.py lines 42-83),
together with theorems about its behaviour.

Tables are modelled as lists of association-list rows.  The pandas frame
mutation performed by the engine (assigning a sentinel key column into
both argument frames) is modelled by explicit state passing: the engine
returns the final states of both frames alongside the four output
frames.  Python exceptions (KeyError on selecting a missing column,
IndexError on iloc of an empty frame) become the error branch of
`Except`.  The Python set of common keys is iterated in an unspecified
order; the embedding enumerates that set through `List.dedup` followed
by `List.filter`, and the properties proved below about the modified
outputs are insensitive to which enumeration of the set is chosen.

Frames carry the default integer index 0, 1, ... that read_csv and
read_excel produce; boolean-mask filtering preserves those labels and
iloc exposes the label as the name of the extracted row.  When a
compare column also occurs among the key columns the selected column
list carries that label twice, `row[col]` then yields a duplicate-label
sub-Series rather than a scalar, and `str(...)` prints it together with
the row's index label and dtype; the embedding models the outcome of
that comparison through an equality-preserving encoding of the
printout.
-/

namespace CompareExcel

/-- Cell values.  `Value.toStr` embeds the string conversion Python
applies before every comparison (`str(...)`, `astype(str)`), so an
integer and a string that print the same way become equal after
stringification. -/
inductive Value where
  | vInt : Int → Value
  | vStr : String → Value
deriving DecidableEq

/-- Stringification of a cell value, as `str` does in the source. -/
def Value.toStr : Value → String
  | .vInt n => toString n
  | .vStr s => s

/-- A row of a frame: column names paired with values, in column order. -/
abbrev Row := List (String × Value)

/-- Label lookup inside a row; the first occurrence wins, matching
label lookup on the association lists the embedding builds. -/
def rowGet : Row → String → Option Value
  | [], _ => none
  | p :: ps, c => if p.1 == c then some p.2 else rowGet ps c

/-- A value of a row stringified the way the source stringifies it; the
default value only keeps the function total, well-formed frames never
hit it. -/
def valStr (r : Row) (c : String) : String :=
  ((rowGet r c).getD (Value.vStr "NaN")).toStr

/-- Column assignment on one row: replace the column in place when it
is present, append it at the end otherwise (pandas semantics of
`df[c] = s`). -/
def rowSet (r : Row) (c : String) (v : Value) : Row :=
  if (rowGet r c).isSome then
    r.map (fun p => if p.1 == c then (c, v) else p)
  else r ++ [(c, v)]

/-- A data frame: named columns and rows. -/
structure DF where
  cols : List String
  rows : List Row
deriving DecidableEq

/-- Well-formedness of a frame: every row lists exactly the frame
columns, in order, as every pandas frame does by construction. -/
def DF.WF (df : DF) : Prop :=
  ∀ r ∈ df.rows, r.map Prod.fst = df.cols

/-- Projection of a row to a list of column labels.  Duplicates in the
label list are kept, exactly as pandas column selection keeps them. -/
def projRow (r : Row) (cs : List String) : Row :=
  cs.map (fun c => (c, (rowGet r c).getD (Value.vStr "NaN")))

/-- Frame-level column selection `df[cs]`: raises KeyError whenever a
requested label is absent from the frame columns, regardless of how
many rows the frame has. -/
def DF.select (df : DF) (cs : List String) : Except String DF :=
  if ∀ c ∈ cs, c ∈ df.cols then
    .ok ⟨cs, df.rows.map (fun r => projRow r cs)⟩
  else .error "KeyError"

/-- The key series of source lines 45-46: per row, the stringified
key-column values joined with the separator. -/
def keySeries (df : DF) (key : List String) : Except String (List String) :=
  (df.select key).map (fun sub =>
    sub.rows.map (fun r => String.intercalate "||" (r.map (fun p => p.2.toStr))))

/-- Column assignment `df[c] = vs` on a whole frame. -/
def DF.setCol (df : DF) (c : String) (vs : List Value) : DF :=
  ⟨if c ∈ df.cols then df.cols else df.cols ++ [c],
   (df.rows.zip vs).map (fun p => rowSet p.1 c p.2)⟩

/-- The composite key the engine stores in the sentinel column, read
back from a row of a mutated frame. -/
def keyOf (r : Row) : String := valStr r "_key"

/-- Rows of a frame paired with their index labels; frames produced by
the loader carry the default integer index starting at 0. -/
def enumRows : Nat → List Row → List (Nat × Row)
  | _, [] => []
  | i, r :: rs => (i, r) :: enumRows (i + 1) rs

/-- Python dtype of a selected row cross-section in this value model:
int64 when every selected value is an integer, object otherwise. -/
def rowDtype (r : Row) : String :=
  if r.all (fun p => match p.2 with | Value.vInt _ => true | Value.vStr _ => false) then
    "int64"
  else "object"

/-- The string `str(row[c])` produces on a row extracted by iloc from
the frame selected to the column list cs.  A uniquely labelled column
yields the scalar string form of the value.  A duplicated label (a
compare column that also occurs among the key columns) yields the
printout of the duplicate-label sub-Series, which lists every
occurrence of the label with its value and ends with the row's index
label (the Name line) and the dtype.  The exact pandas layout differs
in whitespace; this encoding is equal between two rows precisely when
the pandas printouts are: same label, same printed value, same
occurrence count, same row index label and same dtype. -/
def colAccessStr (cs : List String) (lbl : Nat) (r : Row) (c : String) : String :=
  if cs.count c ≤ 1 then valStr r c
  else c ++ "    " ++ valStr r c ++ " x" ++ toString (cs.count c)
    ++ " Name: " ++ toString lbl ++ ", dtype: " ++ rowDtype r

/-- Source lines 70-74: whether some compare column differs between the
two located rows under string comparison of `row[col]`. -/
def hasChanges (cs cmp : List String) (rb ra : Nat × Row) : Bool :=
  cmp.any (fun c => !(colAccessStr cs rb.1 rb.2 c == colAccessStr cs ra.1 ra.2 c))

/-- Source lines 66-67: filter the frame down to the rows bearing the
given composite key, select the requested columns, take the first row
by iloc, keeping its index label (the name of the extracted Series). -/
def ilocFirstProj (df : DF) (k : String) (cs : List String) : Except String (Nat × Row) :=
  if ∀ c ∈ cs, c ∈ df.cols then
    match ((enumRows 0 df.rows).filter (fun p => keyOf p.2 == k)).head? with
    | some p => .ok (p.1, projRow p.2 cs)
    | none => .error "IndexError"
  else .error "KeyError"

/-- The loop over the common keys (source lines 65-78), building the
modified-before and modified-after row lists in iteration order. -/
def modLoop (dfb dfa : DF) (cs cmp : List String) :
    List String → Except String (List Row × List Row)
  | [] => .ok ([], [])
  | k :: ks => do
    let rb ← ilocFirstProj dfb k cs
    let ra ← ilocFirstProj dfa k cs
    let rest ← modLoop dfb dfa cs cmp ks
    if hasChanges cs cmp rb ra then
      .ok (rb.2 :: rest.1, ra.2 :: rest.2)
    else
      .ok rest

/-- The outcome of `compare_dataframes`: the final states of the two
argument frames (the engine assigns a sentinel key column into both)
and the four output frames. -/
structure CompareResult where
  dfBefore : DF
  dfAfter : DF
  deleted : DF
  added : DF
  modifiedBefore : DF
  modifiedAfter : DF
deriving DecidableEq

/-- Shallow embedding of `compare_dataframes` (src/main.py lines
42-83).  Frame mutation becomes explicit state passing, Python
exceptions become the error branch, and the unordered Python set of
common keys is enumerated through `dedup` and `filter`. -/
def compare_dataframes (df_before df_after : DF)
    (key_columns compare_columns : List String) : Except String CompareResult := do
  let kb ← keySeries df_before key_columns
  let ka ← keySeries df_after key_columns
  let dfb := df_before.setCol "_key" (kb.map Value.vStr)
  let dfa := df_after.setCol "_key" (ka.map Value.vStr)
  let cols_to_use := key_columns ++ compare_columns
  let deleted ← DF.select ⟨dfb.cols, dfb.rows.filter (fun r => !(ka.contains (keyOf r)))⟩ cols_to_use
  let added ← DF.select ⟨dfa.cols, dfa.rows.filter (fun r => !(kb.contains (keyOf r)))⟩ cols_to_use
  let common := kb.dedup.filter (fun k => ka.contains k)
  let mods ← modLoop dfb dfa cols_to_use compare_columns common
  .ok ⟨dfb, dfa, deleted, added, ⟨cols_to_use, mods.1⟩, ⟨cols_to_use, mods.2⟩⟩

/-- Composite key of a row, computed directly: stringified key-column
values joined with the separator, as in source lines 45-46. -/
def rowKeyStr (key : List String) (r : Row) : String :=
  String.intercalate "||" (key.map (fun c => valStr r c))

/-- First row of a frame bearing a given composite key. -/
def firstRowWith (df : DF) (key : List String) (k : String) : Row :=
  (df.rows.find? (fun r => rowKeyStr key r == k)).getD []

/-- Index label of the first row of a frame bearing a given composite
key. -/
def firstRowIdx (df : DF) (key : List String) (k : String) : Nat :=
  (((enumRows 0 df.rows).find? (fun p => rowKeyStr key p.2 == k)).map Prod.fst).getD 0

/-- Whether the first before-row and the first after-row bearing key k
are reported different by the comparison of source lines 70-74: the
located rows, projected to the selected columns and carrying their
index labels, disagree in the access string of some compare column. -/
def diffAt (dfB dfA : DF) (key cmp : List String) (k : String) : Bool :=
  hasChanges (key ++ cmp) cmp
    (firstRowIdx dfB key k, projRow (firstRowWith dfB key k) (key ++ cmp))
    (firstRowIdx dfA key k, projRow (firstRowWith dfA key k) (key ++ cmp))

/-- One deterministic enumeration of the set of common composite keys. -/
def commonKeysL (dfB dfA : DF) (key : List String) : List String :=
  ((dfB.rows.map (rowKeyStr key)).dedup).filter
    (fun k => (dfA.rows.map (rowKeyStr key)).contains k)

/-- Spec-side definition following section 4.1 step 2 of the spec:
deleted rows are the before-rows whose composite key occurs in no
after-row, in before-row order, projected to the selected columns. -/
def specDeleted (dfB dfA : DF) (key cmp : List String) : DF :=
  ⟨key ++ cmp,
   (dfB.rows.filter
      (fun r => !((dfA.rows.map (rowKeyStr key)).contains (rowKeyStr key r)))).map
     (fun r => projRow r (key ++ cmp))⟩

/-- Spec-side definition following section 4.1 step 3 of the spec,
symmetric to the deleted table. -/
def specAdded (dfB dfA : DF) (key cmp : List String) : DF :=
  ⟨key ++ cmp,
   (dfA.rows.filter
      (fun r => !((dfB.rows.map (rowKeyStr key)).contains (rowKeyStr key r)))).map
     (fun r => projRow r (key ++ cmp))⟩

/-- A row extended with the sentinel key column, the shape every row of
both argument frames has after the engine ran. -/
def mutRow (key : List String) (r : Row) : Row :=
  r ++ [("_key", Value.vStr (rowKeyStr key r))]

/-- A frame extended with the sentinel key column. -/
def mutDF (key : List String) (df : DF) : DF :=
  ⟨df.cols ++ ["_key"], df.rows.map (fun r => mutRow key r)⟩

/-- Hypotheses under which the behaviour of the engine is
characterized: both frames are well-formed, neither already carries the
sentinel column, and every selected column exists in both frames.
Non-emptiness of the selections is deliberately not required. -/
def ValidInput (b a : DF) (key cmp : List String) : Prop :=
  DF.WF b ∧ DF.WF a ∧ "_key" ∉ b.cols ∧ "_key" ∉ a.cols ∧
  (∀ c ∈ key, c ∈ b.cols) ∧ (∀ c ∈ key, c ∈ a.cols) ∧
  (∀ c ∈ cmp, c ∈ b.cols) ∧ (∀ c ∈ cmp, c ∈ a.cols)

instance (df : DF) : Decidable (DF.WF df) := by
  unfold DF.WF
  infer_instance

instance (b a : DF) (key cmp : List String) : Decidable (ValidInput b a key cmp) := by
  unfold ValidInput
  infer_instance

/-! ### Basic lemmas about rows -/

theorem rowGet_of_not_mem (r : Row) (c : String) (h : c ∉ r.map Prod.fst) :
    rowGet r c = none := by
  induction r with
  | nil => rfl
  | cons p ps ih =>
    simp only [List.map_cons, List.mem_cons, not_or] at h
    have hpc : (p.1 == c) = false := by
      simp only [beq_eq_false_iff_ne, ne_eq]
      exact fun hh => h.1 hh.symm
    simp only [rowGet, hpc, Bool.false_eq_true, if_false]
    exact ih h.2

theorem rowGet_append_sentinel_ne (r : Row) (n c : String) (v : Value) (h : ¬ c = n) :
    rowGet (r ++ [(n, v)]) c = rowGet r c := by
  induction r with
  | nil =>
    have hn : (n == c) = false := by
      simp only [beq_eq_false_iff_ne, ne_eq]
      exact fun hh => h hh.symm
    simp [rowGet, hn]
  | cons p ps ih =>
    by_cases hpc : p.1 = c
    · simp [rowGet, hpc]
    · have hpc' : (p.1 == c) = false := by simp [hpc]
      simp only [List.cons_append, rowGet, hpc', Bool.false_eq_true, if_false]
      exact ih

theorem rowGet_append_sentinel (r : Row) (n : String) (v : Value) (h : rowGet r n = none) :
    rowGet (r ++ [(n, v)]) n = some v := by
  induction r with
  | nil => simp [rowGet]
  | cons p ps ih =>
    by_cases hpc : p.1 = n
    · simp [rowGet, hpc] at h
    · have hpc' : (p.1 == n) = false := by simp [hpc]
      simp only [rowGet, hpc', Bool.false_eq_true, if_false] at h
      simp only [List.cons_append, rowGet, hpc', Bool.false_eq_true, if_false]
      exact ih h

theorem rowGet_projRow_of_mem (r : Row) (cs : List String) (c : String) (h : c ∈ cs) :
    rowGet (projRow r cs) c = some ((rowGet r c).getD (Value.vStr "NaN")) := by
  induction cs with
  | nil => cases h
  | cons c0 cs ih =>
    by_cases hc0 : c0 = c
    · subst hc0
      simp [projRow, rowGet]
    · have hc0' : (c0 == c) = false := by simp [hc0]
      have hmem : c ∈ cs := by
        rcases List.mem_cons.mp h with h1 | h1
        · exact absurd h1.symm hc0
        · exact h1
      simp only [projRow, List.map_cons, rowGet, hc0', Bool.false_eq_true, if_false]
      exact ih hmem

theorem valStr_projRow_of_mem (r : Row) (cs : List String) (c : String) (h : c ∈ cs) :
    valStr (projRow r cs) c = valStr r c := by
  unfold valStr
  rw [rowGet_projRow_of_mem r cs c h]
  rfl

theorem rowKeyStr_projRow (r : Row) (key cs : List String) (h : ∀ c ∈ key, c ∈ cs) :
    rowKeyStr key (projRow r cs) = rowKeyStr key r := by
  unfold rowKeyStr
  congr 1
  exact List.map_congr_left (fun c hc => valStr_projRow_of_mem r cs c (h c hc))

theorem projRow_mutRow (key : List String) (r : Row) (cs : List String)
    (h : ∀ c ∈ cs, ¬ c = "_key") :
    projRow (mutRow key r) cs = projRow r cs := by
  unfold projRow mutRow
  exact List.map_congr_left (fun c hc => by
    rw [rowGet_append_sentinel_ne r "_key" c _ (h c hc)])

theorem keyOf_mutRow (key : List String) (r : Row) (h : rowGet r "_key" = none) :
    keyOf (mutRow key r) = rowKeyStr key r := by
  unfold keyOf mutRow valStr
  rw [rowGet_append_sentinel r "_key" _ h]
  rfl

theorem rowGet_sentinel_none (df : DF) (h : DF.WF df) (hk : "_key" ∉ df.cols)
    (r : Row) (hr : r ∈ df.rows) : rowGet r "_key" = none := by
  apply rowGet_of_not_mem
  rw [h r hr]
  exact hk

/-! ### List utilities -/

theorem zip_map_same {α β γ : Type} (l : List α) (f : α → β) (g : α × β → γ) :
    (l.zip (l.map f)).map g = l.map (fun x => g (x, f x)) := by
  induction l with
  | nil => rfl
  | cons x xs ih => simp [List.zip_cons_cons, ih]

theorem filter_map_swap {α β : Type} (l : List α) (f : α → β) (p : β → Bool) :
    (l.map f).filter p = (l.filter (fun x => p (f x))).map f := by
  induction l with
  | nil => rfl
  | cons x xs ih =>
    simp only [List.map_cons, List.filter_cons]
    cases hp : p (f x) <;> simp [hp, ih]

theorem head?_filter_eq_find? {α : Type} (l : List α) (p : α → Bool) :
    (l.filter p).head? = l.find? p := by
  induction l with
  | nil => rfl
  | cons x xs ih =>
    simp only [List.filter_cons, List.find?_cons]
    cases hp : p x <;> simp [hp, ih]

theorem head?_map {α β : Type} (l : List α) (f : α → β) :
    (l.map f).head? = l.head?.map f := by
  cases l <;> rfl

theorem any_congr_mem {α : Type} (l : List α) (f g : α → Bool)
    (h : ∀ x ∈ l, f x = g x) : l.any f = l.any g := by
  induction l with
  | nil => rfl
  | cons x xs ih =>
    simp only [List.any_cons]
    rw [h x (List.mem_cons_self x xs), ih (fun y hy => h y (List.mem_cons_of_mem x hy))]

theorem find?_congr_mem {α : Type} (l : List α) (p q : α → Bool)
    (h : ∀ x ∈ l, p x = q x) : l.find? p = l.find? q := by
  induction l with
  | nil => rfl
  | cons x xs ih =>
    have hx := h x (List.mem_cons_self x xs)
    cases hp : p x
    · rw [List.find?_cons_of_neg _ (by simp [hp]),
          List.find?_cons_of_neg _ (by simp [← hx, hp])]
      exact ih (fun y hy => h y (List.mem_cons_of_mem x hy))
    · rw [List.find?_cons_of_pos _ hp, List.find?_cons_of_pos _ (by rw [← hx, hp])]

theorem enumRows_map (i : Nat) (l : List Row) (f : Row → Row) :
    enumRows i (l.map f) = (enumRows i l).map (fun p => (p.1, f p.2)) := by
  induction l generalizing i with
  | nil => rfl
  | cons r rs ih => simp [enumRows, ih]

theorem enumRows_snd_mem (i : Nat) (l : List Row) (p : Nat × Row)
    (hp : p ∈ enumRows i l) : p.2 ∈ l := by
  induction l generalizing i with
  | nil => cases hp
  | cons r rs ih =>
    rcases List.mem_cons.mp hp with h | h
    · rw [h]
      exact List.mem_cons_self _ _
    · exact List.mem_cons_of_mem _ (ih (i + 1) h)

theorem enumRows_find?_snd (i : Nat) (l : List Row) (q : Row → Bool) :
    ((enumRows i l).find? (fun p => q p.2)).map Prod.snd = l.find? q := by
  induction l generalizing i with
  | nil => rfl
  | cons r rs ih =>
    cases hq : q r
    · rw [show enumRows i (r :: rs) = (i, r) :: enumRows (i + 1) rs from rfl,
          List.find?_cons_of_neg _ (by simp [hq]),
          List.find?_cons_of_neg _ (by simp [hq])]
      exact ih (i + 1)
    · rw [show enumRows i (r :: rs) = (i, r) :: enumRows (i + 1) rs from rfl,
          List.find?_cons_of_pos _ (by simp [hq]),
          List.find?_cons_of_pos _ hq]
      rfl

/-! ### Reduction of the monadic plumbing -/

theorem bind_ok {α β : Type} (a : α) (f : α → Except String β) :
    (Except.ok a >>= f) = f a := rfl

theorem keySeries_eq (df : DF) (key : List String) (h : ∀ c ∈ key, c ∈ df.cols) :
    keySeries df key = .ok (df.rows.map (fun r => rowKeyStr key r)) := by
  unfold keySeries DF.select
  rw [if_pos h]
  show Except.ok ((df.rows.map (fun r => projRow r key)).map
      (fun r => String.intercalate "||" (r.map (fun p => p.2.toStr)))) = _
  rw [List.map_map]
  congr 1
  apply List.map_congr_left
  intro r _
  show String.intercalate "||" ((projRow r key).map (fun p => p.2.toStr)) = rowKeyStr key r
  unfold projRow rowKeyStr valStr
  rw [List.map_map]
  rfl

theorem setCol_sentinel (df : DF) (key : List String)
    (hW : DF.WF df) (hk : "_key" ∉ df.cols) :
    df.setCol "_key" ((df.rows.map (fun r => rowKeyStr key r)).map Value.vStr)
      = mutDF key df := by
  unfold DF.setCol mutDF
  rw [if_neg hk, List.map_map, zip_map_same]
  congr 1
  apply List.map_congr_left
  intro r hr
  show rowSet r "_key" (Value.vStr (rowKeyStr key r)) = mutRow key r
  unfold rowSet mutRow
  rw [rowGet_sentinel_none df hW hk r hr]
  rfl

theorem select_filtered_mut (b : DF) (key : List String) (p : String → Bool)
    (cs : List String)
    (hW : DF.WF b) (hk : "_key" ∉ b.cols) (hcs : ∀ c ∈ cs, c ∈ b.cols) :
    DF.select ⟨(mutDF key b).cols, (mutDF key b).rows.filter (fun r => p (keyOf r))⟩ cs
      = .ok ⟨cs, (b.rows.filter (fun r => p (rowKeyStr key r))).map
          (fun r => projRow r cs)⟩ := by
  have hmem : ∀ c ∈ cs, c ∈ (DF.mk (mutDF key b).cols
      ((mutDF key b).rows.filter (fun r => p (keyOf r)))).cols := by
    intro c hc
    show c ∈ (mutDF key b).cols
    unfold mutDF
    exact List.mem_append.mpr (Or.inl (hcs c hc))
  have hne : ∀ c ∈ cs, ¬ c = "_key" := by
    intro c hc he
    exact hk (he ▸ hcs c hc)
  have hrows : ((mutDF key b).rows.filter (fun r => p (keyOf r))).map
      (fun r => projRow r cs)
      = (b.rows.filter (fun r => p (rowKeyStr key r))).map (fun r => projRow r cs) := by
    show ((b.rows.map (fun r => mutRow key r)).filter (fun r => p (keyOf r))).map
      (fun r => projRow r cs) = _
    rw [filter_map_swap, List.map_map]
    rw [List.filter_congr (fun r hr => by
      show p (keyOf (mutRow key r)) = p (rowKeyStr key r)
      rw [keyOf_mutRow key r (rowGet_sentinel_none b hW hk r hr)])]
    apply List.map_congr_left
    intro r _
    show projRow (mutRow key r) cs = projRow r cs
    exact projRow_mutRow key r cs hne
  unfold DF.select
  rw [if_pos hmem]
  rw [show (DF.mk (mutDF key b).cols ((mutDF key b).rows.filter
      (fun r => p (keyOf r)))).rows = (mutDF key b).rows.filter (fun r => p (keyOf r)) from rfl]
  rw [hrows]

theorem select_filtered_notcontains (b : DF) (key ks cs : List String)
    (hW : DF.WF b) (hk : "_key" ∉ b.cols) (hcs : ∀ c ∈ cs, c ∈ b.cols) :
    DF.select ⟨(mutDF key b).cols,
        (mutDF key b).rows.filter (fun r => !(ks.contains (keyOf r)))⟩ cs
      = .ok ⟨cs, (b.rows.filter (fun r => !(ks.contains (rowKeyStr key r)))).map
          (fun r => projRow r cs)⟩ :=
  select_filtered_mut b key (fun k => !(ks.contains k)) cs hW hk hcs

theorem ilocFirstProj_eq (b : DF) (key cs : List String) (k : String)
    (hW : DF.WF b) (hk : "_key" ∉ b.cols) (hcs : ∀ c ∈ cs, c ∈ b.cols)
    (hmem : k ∈ b.rows.map (rowKeyStr key)) :
    ilocFirstProj (mutDF key b) k cs
      = .ok (firstRowIdx b key k, projRow (firstRowWith b key k) cs) := by
  have hmemc : ∀ c ∈ cs, c ∈ (mutDF key b).cols := fun c hc =>
    List.mem_append.mpr (Or.inl (hcs c hc))
  have hne : ∀ c ∈ cs, ¬ c = "_key" := fun c hc he => hk (he ▸ hcs c hc)
  unfold ilocFirstProj
  rw [if_pos hmemc, head?_filter_eq_find?]
  have hrw : (enumRows 0 (mutDF key b).rows).find? (fun p => keyOf p.2 == k)
      = ((enumRows 0 b.rows).find? (fun p => rowKeyStr key p.2 == k)).map
          (fun p => (p.1, mutRow key p.2)) := by
    show (enumRows 0 (b.rows.map (fun r => mutRow key r))).find?
      (fun p => keyOf p.2 == k) = _
    rw [enumRows_map, List.find?_map]
    congr 1
    apply find?_congr_mem
    intro p hp
    show (keyOf (mutRow key p.2) == k) = (rowKeyStr key p.2 == k)
    rw [keyOf_mutRow key p.2
      (rowGet_sentinel_none b hW hk p.2 (enumRows_snd_mem 0 b.rows p hp))]
  rw [hrw]
  have hsome : ((enumRows 0 b.rows).find? (fun p => rowKeyStr key p.2 == k)).isSome := by
    rcases List.mem_map.mp hmem with ⟨r0, hr0, hk0⟩
    have h1 : (b.rows.find? (fun r => rowKeyStr key r == k)).isSome :=
      List.find?_isSome.mpr ⟨r0, hr0, by simp [hk0]⟩
    rw [← enumRows_find?_snd 0 b.rows] at h1
    rcases hE : (enumRows 0 b.rows).find? (fun p => rowKeyStr key p.2 == k) with _ | p0
    · rw [hE] at h1
      simp at h1
    · rw [hE]
      rfl
  rcases hE : (enumRows 0 b.rows).find? (fun p => rowKeyStr key p.2 == k) with _ | p0
  · rw [hE] at hsome
    simp at hsome
  · rw [hE]
    have hfstrw : firstRowIdx b key k = p0.1 := by
      unfold firstRowIdx
      rw [hE]
      rfl
    have hsndrw : firstRowWith b key k = p0.2 := by
      unfold firstRowWith
      rw [← enumRows_find?_snd 0 b.rows, hE]
      rfl
    rw [hfstrw, hsndrw]
    show Except.ok ((p0.1, mutRow key p0.2).1, projRow (p0.1, mutRow key p0.2).2 cs) = _
    rw [show (p0.1, mutRow key p0.2).2 = mutRow key p0.2 from rfl,
        projRow_mutRow key p0.2 cs hne]

theorem modLoop_eq (b a : DF) (key cmp : List String)
    (hWb : DF.WF b) (hWa : DF.WF a) (hkb : "_key" ∉ b.cols) (hka : "_key" ∉ a.cols)
    (hcsb : ∀ c ∈ key ++ cmp, c ∈ b.cols) (hcsa : ∀ c ∈ key ++ cmp, c ∈ a.cols)
    (ks : List String)
    (hks : ∀ k ∈ ks, k ∈ b.rows.map (rowKeyStr key) ∧ k ∈ a.rows.map (rowKeyStr key)) :
    modLoop (mutDF key b) (mutDF key a) (key ++ cmp) cmp ks
      = .ok ((ks.filter (diffAt b a key cmp)).map
               (fun k => projRow (firstRowWith b key k) (key ++ cmp)),
             (ks.filter (diffAt b a key cmp)).map
               (fun k => projRow (firstRowWith a key k) (key ++ cmp))) := by
  induction ks with
  | nil => rfl
  | cons k ks ih =>
    have hk1 := (hks k (List.mem_cons_self k ks)).1
    have hk2 := (hks k (List.mem_cons_self k ks)).2
    unfold modLoop
    rw [ilocFirstProj_eq b key (key ++ cmp) k hWb hkb hcsb hk1, bind_ok,
        ilocFirstProj_eq a key (key ++ cmp) k hWa hka hcsa hk2, bind_ok,
        ih (fun x hx => hks x (List.mem_cons_of_mem k hx)), bind_ok]
    have hany : hasChanges (key ++ cmp) cmp
        (firstRowIdx b key k, projRow (firstRowWith b key k) (key ++ cmp))
        (firstRowIdx a key k, projRow (firstRowWith a key k) (key ++ cmp))
        = diffAt b a key cmp k := rfl
    rw [hany, List.filter_cons]
    cases hd : diffAt b a key cmp k <;> simp [hd]

/-! ### Full characterization of the engine under valid inputs -/

theorem compare_dataframes_eq (b a : DF) (key cmp : List String)
    (h : ValidInput b a key cmp) :
    compare_dataframes b a key cmp = .ok
      ⟨mutDF key b, mutDF key a, specDeleted b a key cmp, specAdded b a key cmp,
       ⟨key ++ cmp, ((commonKeysL b a key).filter (diffAt b a key cmp)).map
           (fun k => projRow (firstRowWith b key k) (key ++ cmp))⟩,
       ⟨key ++ cmp, ((commonKeysL b a key).filter (diffAt b a key cmp)).map
           (fun k => projRow (firstRowWith a key k) (key ++ cmp))⟩⟩ := by
  obtain ⟨hWb, hWa, hkb, hka, h1, h2, h3, h4⟩ := h
  have hctub : ∀ c ∈ key ++ cmp, c ∈ b.cols := by
    intro c hc
    rcases List.mem_append.mp hc with hc | hc
    · exact h1 c hc
    · exact h3 c hc
  have hctua : ∀ c ∈ key ++ cmp, c ∈ a.cols := by
    intro c hc
    rcases List.mem_append.mp hc with hc | hc
    · exact h2 c hc
    · exact h4 c hc
  have hcommon : ∀ k ∈ commonKeysL b a key,
      k ∈ b.rows.map (rowKeyStr key) ∧ k ∈ a.rows.map (rowKeyStr key) := by
    intro k hkk
    unfold commonKeysL at hkk
    have h5 := List.mem_filter.mp hkk
    refine ⟨List.mem_dedup.mp h5.1, ?_⟩
    exact List.elem_iff.mp h5.2
  unfold compare_dataframes
  rw [keySeries_eq b key h1, bind_ok, keySeries_eq a key h2, bind_ok]
  show (DF.select _ _ >>= _) = _
  rw [setCol_sentinel b key hWb hkb, setCol_sentinel a key hWa hka]
  rw [select_filtered_notcontains b key (a.rows.map (rowKeyStr key)) (key ++ cmp)
        hWb hkb hctub, bind_ok]
  rw [select_filtered_notcontains a key (b.rows.map (rowKeyStr key)) (key ++ cmp)
        hWa hka hctua, bind_ok]
  dsimp only []
  rw [modLoop_eq b a key cmp hWb hWa hkb hka hctub hctua
        ((List.map (fun r => rowKeyStr key r) b.rows).dedup.filter
          (fun k => (List.map (fun r => rowKeyStr key r) a.rows).contains k))
        hcommon,
      bind_ok]
  rfl

/-! ### Concrete example frames (the end-to-end example of spec section 8) -/

/-- Before-frame of the end-to-end example. -/
def exBefore : DF := ⟨["id", "name", "val"],
  [[("id", Value.vInt 1), ("name", Value.vStr "A"), ("val", Value.vInt 10)],
   [("id", Value.vInt 2), ("name", Value.vStr "B"), ("val", Value.vInt 20)]]⟩

/-- After-frame of the end-to-end example. -/
def exAfter : DF := ⟨["id", "name", "val"],
  [[("id", Value.vInt 1), ("name", Value.vStr "A"), ("val", Value.vInt 99)],
   [("id", Value.vInt 3), ("name", Value.vStr "C"), ("val", Value.vInt 30)]]⟩

/-! ### Claim C1 (error handling on precondition violations) -/

/-- Claim C1, counterexample: calling the engine with an empty
compare-column selection violates a stated precondition, yet the engine
does not fail with any error: it silently proceeds and returns output
frames (here with an empty modified output). -/
theorem claimC1_counterexample :
    (compare_dataframes exBefore exAfter ["id"] []).toOption ≠ none ∧
    (compare_dataframes exBefore exAfter ["id"] []).toOption.map
        (fun res => res.modifiedBefore.rows) = some [] := by
  decide

/-- Claim C1, amended: the engine itself performs no precondition
validation.  Whenever every selected column exists in both frames it
succeeds and produces output, even when the key or compare selection is
empty or the two column sets differ; enforcement of the preconditions
lives in the caller UI, and a selection naming a missing column
surfaces as a generic KeyError rather than a dedicated InvalidInput. -/
theorem claimC1_theorem (b a : DF) (key cmp : List String)
    (h : ValidInput b a key cmp) :
    (compare_dataframes b a key cmp).toOption ≠ none := by
  rw [compare_dataframes_eq b a key cmp h]
  simp [Except.toOption]

/-- Witness for claim C1 at a concrete input. -/
theorem claimC1_witness :
    ValidInput exBefore exAfter ["id"] [] ∧
    (compare_dataframes exBefore exAfter ["id"] []).toOption ≠ none :=
  ⟨by decide, claimC1_theorem exBefore exAfter ["id"] [] (by decide)⟩

/-! ### Claim C2 (purity of the engine in its arguments) -/

/-- Claim C2, counterexample: after the engine runs on concrete frames,
the before-frame final state has gained a sentinel key column, so the
argument tables are not unchanged; the caller in src/main.py line 214
passes defensive copies precisely because of this mutation. -/
theorem claimC2_counterexample :
    (compare_dataframes exBefore exAfter ["id"] ["name", "val"]).toOption.map
        (fun res => res.dfBefore.cols) = some ["id", "name", "val", "_key"] ∧
    exBefore.cols = ["id", "name", "val"] := by
  decide

/-- Claim C2, amended: the engine mutates both argument frames by
exactly one change, appending the sentinel composite-key column; the
original columns, rows and values are all preserved as a prefix of the
final state, and the application passes defensive copies so the loaded
session tables stay unchanged. -/
theorem claimC2_theorem (b a : DF) (key cmp : List String)
    (h : ValidInput b a key cmp) :
    (compare_dataframes b a key cmp).toOption.map
        (fun res => (res.dfBefore, res.dfAfter))
      = some (mutDF key b, mutDF key a) := by
  rw [compare_dataframes_eq b a key cmp h]
  rfl

/-- Witness for claim C2 at a concrete input. -/
theorem claimC2_witness :
    ValidInput exBefore exAfter ["id"] ["name", "val"] ∧
    (compare_dataframes exBefore exAfter ["id"] ["name", "val"]).toOption.map
        (fun res => (res.dfBefore, res.dfAfter))
      = some (mutDF ["id"] exBefore, mutDF ["id"] exAfter) :=
  ⟨by decide, claimC2_theorem exBefore exAfter ["id"] ["name", "val"] (by decide)⟩

/-! ### Claim C3 (output column sets) -/

/-- Claim C3, counterexample: when the compare selection overlaps the
key selection (allowed by the data model), the output column list is
the plain concatenation of the two selections, so the key column
appears twice; the output columns are not the duplicate-free union. -/
theorem claimC3_counterexample :
    (compare_dataframes exBefore exAfter ["id"] ["id", "val"]).toOption.map
        (fun res => res.deleted.cols) = some ["id", "id", "val"] ∧
    ¬ List.Nodup ["id", "id", "val"] := by
  decide

/-- Claim C3, amended: every output frame has column list exactly
keyColumns ++ compareColumns.  When the two selections are disjoint and
each is duplicate-free — which the application guarantees by offering
only non-key columns for the compare selection — this list is
duplicate-free and equals the key columns followed by the compare
columns not already included; when the selections overlap, the
concatenation keeps the duplicated columns. -/
theorem claimC3_theorem (b a : DF) (key cmp : List String)
    (h : ValidInput b a key cmp) (hd : ∀ c ∈ cmp, c ∉ key)
    (hnk : key.Nodup) (hnc : cmp.Nodup) :
    (compare_dataframes b a key cmp).toOption.map
        (fun res => (res.deleted.cols, res.added.cols,
          res.modifiedBefore.cols, res.modifiedAfter.cols))
      = some (key ++ cmp, key ++ cmp, key ++ cmp, key ++ cmp) ∧
    (key ++ cmp).Nodup ∧
    key ++ cmp = key ++ cmp.filter (fun c => !(key.contains c)) := by
  refine ⟨?_, ?_, ?_⟩
  · rw [compare_dataframes_eq b a key cmp h]
    rfl
  · rw [List.nodup_append]
    exact ⟨hnk, hnc, fun c hck hcc => hd c hcc hck⟩
  · congr 1
    symm
    rw [List.filter_eq_self]
    intro c hc
    simp [List.contains, List.elem_eq_mem, hd c hc]

/-- Witness for claim C3 at a concrete input. -/
theorem claimC3_witness :
    ValidInput exBefore exAfter ["id"] ["name", "val"] ∧
    (compare_dataframes exBefore exAfter ["id"] ["name", "val"]).toOption.map
        (fun res => (res.deleted.cols, res.added.cols,
          res.modifiedBefore.cols, res.modifiedAfter.cols))
      = some (["id", "name", "val"], ["id", "name", "val"],
          ["id", "name", "val"], ["id", "name", "val"]) :=
  ⟨by decide,
   (claimC3_theorem exBefore exAfter ["id"] ["name", "val"] (by decide)
      (by decide) (by decide) (by decide)).1⟩

/-! ### Claim C6 (composite keys and matching) -/

/-- Before-frame of the separator-collision example. -/
def colBefore : DF := ⟨["dept", "empId", "val"],
  [[("dept", Value.vStr "A||B"), ("empId", Value.vStr "C"), ("val", Value.vStr "1")]]⟩

/-- After-frame of the separator-collision example: its key-column
value pair differs from the before-row, yet the concatenated composite
keys agree. -/
def colAfter : DF := ⟨["dept", "empId", "val"],
  [[("dept", Value.vStr "A"), ("empId", Value.vStr "B||C"), ("val", Value.vStr "1")]]⟩

/-- Claim C6, counterexample: with keyColumns [dept, empId], the
before-row with pair (A||B, C) and the after-row with the different
pair (A, B||C) both produce the composite key A||B||C, so the engine
matches them: neither row is reported deleted or added, refuting that a
before-row matches only after-rows with the identical key-column value
pair. -/
theorem claimC6_counterexample :
    (compare_dataframes colBefore colAfter ["dept", "empId"] ["val"]).toOption.map
        (fun res => (res.deleted.rows, res.added.rows)) = some ([], []) ∧
    rowGet (colBefore.rows.getD 0 []) "dept" ≠ rowGet (colAfter.rows.getD 0 []) "dept" := by
  decide

/-- Claim C6, amended: each composite key is the stringified key-column
values joined with the separator (for two key columns, the first value,
the separator, then the second value), and a before-row is matched
exactly when some after-row has an equal composite key: the deleted
output consists precisely of the before-rows whose composite key equals
no after-row key.  Equal composite keys need not mean identical
key-column value pairs: when a key value itself contains the separator,
different pairs can collide, the limitation the spec flags in section
9. -/
theorem claimC6_theorem (b a : DF) (key cmp : List String)
    (h : ValidInput b a key cmp) :
    (compare_dataframes b a key cmp).toOption.map (fun res => res.deleted.rows)
      = some ((b.rows.filter (fun r =>
          !((a.rows.map (rowKeyStr key)).contains (rowKeyStr key r)))).map
            (fun r => projRow r (key ++ cmp))) ∧
    ∀ (c₁ c₂ : String) (r : Row),
      rowKeyStr [c₁, c₂] r = valStr r c₁ ++ "||" ++ valStr r c₂ := by
  constructor
  · rw [compare_dataframes_eq b a key cmp h]
    rfl
  · intro c₁ c₂ r
    rfl

/-! ### Key and membership lemmas used by the remaining claims -/

theorem rowKeyStr_firstRowWith (df : DF) (key : List String) (k : String)
    (hmem : k ∈ df.rows.map (rowKeyStr key)) :
    rowKeyStr key (firstRowWith df key k) = k := by
  have hsome : (df.rows.find? (fun r => rowKeyStr key r == k)).isSome := by
    rcases List.mem_map.mp hmem with ⟨r0, hr0, hk0⟩
    exact List.find?_isSome.mpr ⟨r0, hr0, by simp [hk0]⟩
  rcases hfind : df.rows.find? (fun r => rowKeyStr key r == k) with _ | r'
  · rw [hfind] at hsome
    simp at hsome
  · have hbeq := List.find?_some hfind
    unfold firstRowWith
    rw [hfind]
    exact eq_of_beq hbeq

theorem commonKeysL_mem (b a : DF) (key : List String) (k : String)
    (hk : k ∈ commonKeysL b a key) :
    k ∈ b.rows.map (rowKeyStr key) ∧ k ∈ a.rows.map (rowKeyStr key) := by
  unfold commonKeysL at hk
  have h5 := List.mem_filter.mp hk
  exact ⟨List.mem_dedup.mp h5.1, List.elem_iff.mp h5.2⟩

theorem commonKeysL_nodup (b a : DF) (key : List String) :
    (commonKeysL b a key).Nodup :=
  List.Nodup.filter _ (List.nodup_dedup _)

theorem projRow_key_eq (key cmp : List String) (r r' : Row)
    (heq : projRow r (key ++ cmp) = projRow r' (key ++ cmp)) :
    rowKeyStr key r = rowKeyStr key r' := by
  have hsub : ∀ c ∈ key, c ∈ key ++ cmp := fun c hc => List.mem_append.mpr (Or.inl hc)
  rw [← rowKeyStr_projRow r key (key ++ cmp) hsub, heq,
      rowKeyStr_projRow r' key (key ++ cmp) hsub]

theorem modified_keys_eq_b (b a : DF) (key cmp : List String) :
    (((commonKeysL b a key).filter (diffAt b a key cmp)).map
        (fun k => projRow (firstRowWith b key k) (key ++ cmp))).map (rowKeyStr key)
      = (commonKeysL b a key).filter (diffAt b a key cmp) := by
  rw [List.map_map]
  have hvals : ∀ k ∈ (commonKeysL b a key).filter (diffAt b a key cmp),
      rowKeyStr key (projRow (firstRowWith b key k) (key ++ cmp)) = k := by
    intro k hk
    rw [rowKeyStr_projRow _ key _ (fun c hc => List.mem_append.mpr (Or.inl hc))]
    exact rowKeyStr_firstRowWith b key k
      (commonKeysL_mem b a key k (List.mem_of_mem_filter hk)).1
  calc ((commonKeysL b a key).filter (diffAt b a key cmp)).map
        ((rowKeyStr key) ∘ (fun k => projRow (firstRowWith b key k) (key ++ cmp)))
      = ((commonKeysL b a key).filter (diffAt b a key cmp)).map id :=
        List.map_congr_left hvals
    _ = _ := List.map_id _

theorem modified_keys_eq_a (b a : DF) (key cmp : List String) :
    (((commonKeysL b a key).filter (diffAt b a key cmp)).map
        (fun k => projRow (firstRowWith a key k) (key ++ cmp))).map (rowKeyStr key)
      = (commonKeysL b a key).filter (diffAt b a key cmp) := by
  rw [List.map_map]
  have hvals : ∀ k ∈ (commonKeysL b a key).filter (diffAt b a key cmp),
      rowKeyStr key (projRow (firstRowWith a key k) (key ++ cmp)) = k := by
    intro k hk
    rw [rowKeyStr_projRow _ key _ (fun c hc => List.mem_append.mpr (Or.inl hc))]
    exact rowKeyStr_firstRowWith a key k
      (commonKeysL_mem b a key k (List.mem_of_mem_filter hk)).2
  calc ((commonKeysL b a key).filter (diffAt b a key cmp)).map
        ((rowKeyStr key) ∘ (fun k => projRow (firstRowWith a key k) (key ++ cmp)))
      = ((commonKeysL b a key).filter (diffAt b a key cmp)).map id :=
        List.map_congr_left hvals
    _ = _ := List.map_id _

theorem mem_specDeleted_iff (b a : DF) (key cmp : List String) (r : Row)
    (hr : r ∈ b.rows) :
    projRow r (key ++ cmp) ∈ (specDeleted b a key cmp).rows
      ↔ rowKeyStr key r ∉ a.rows.map (rowKeyStr key) := by
  unfold specDeleted
  constructor
  · intro hmem
    rcases List.mem_map.mp hmem with ⟨r', hr', heq⟩
    have hf := List.mem_filter.mp hr'
    have hkeyeq : rowKeyStr key r' = rowKeyStr key r := projRow_key_eq key cmp r' r heq
    intro hcon
    have hb := hf.2
    rw [hkeyeq] at hb
    simp [List.contains, List.elem_eq_mem, hcon] at hb
  · intro hnot
    apply List.mem_map.mpr
    refine ⟨r, List.mem_filter.mpr ⟨hr, ?_⟩, rfl⟩
    simp [List.contains, List.elem_eq_mem, hnot]

theorem mem_specAdded_iff (b a : DF) (key cmp : List String) (r : Row)
    (hr : r ∈ a.rows) :
    projRow r (key ++ cmp) ∈ (specAdded b a key cmp).rows
      ↔ rowKeyStr key r ∉ b.rows.map (rowKeyStr key) := by
  unfold specAdded
  constructor
  · intro hmem
    rcases List.mem_map.mp hmem with ⟨r', hr', heq⟩
    have hf := List.mem_filter.mp hr'
    have hkeyeq : rowKeyStr key r' = rowKeyStr key r := projRow_key_eq key cmp r' r heq
    intro hcon
    have hb := hf.2
    rw [hkeyeq] at hb
    simp [List.contains, List.elem_eq_mem, hcon] at hb
  · intro hnot
    apply List.mem_map.mpr
    refine ⟨r, List.mem_filter.mpr ⟨hr, ?_⟩, rfl⟩
    simp [List.contains, List.elem_eq_mem, hnot]

theorem mem_common_iff_b (b a : DF) (key : List String) (r : Row) (hr : r ∈ b.rows) :
    rowKeyStr key r ∈ commonKeysL b a key
      ↔ rowKeyStr key r ∈ a.rows.map (rowKeyStr key) := by
  unfold commonKeysL
  rw [List.mem_filter]
  constructor
  · intro hx
    exact List.elem_iff.mp hx.2
  · intro hx
    refine ⟨List.mem_dedup.mpr (List.mem_map.mpr ⟨r, hr, rfl⟩), ?_⟩
    exact List.elem_iff.mpr hx

theorem mem_common_iff_a (b a : DF) (key : List String) (r : Row) (hr : r ∈ a.rows) :
    rowKeyStr key r ∈ commonKeysL b a key
      ↔ rowKeyStr key r ∈ b.rows.map (rowKeyStr key) := by
  unfold commonKeysL
  rw [List.mem_filter]
  constructor
  · intro hx
    exact List.mem_dedup.mp hx.1
  · intro hx
    exact ⟨List.mem_dedup.mpr hx,
      List.elem_iff.mpr (List.mem_map.mpr ⟨r, hr, rfl⟩)⟩

/-- Witness for claim C6 at a concrete input. -/
theorem claimC6_witness :
    ValidInput exBefore exAfter ["id"] ["name", "val"] ∧
    (compare_dataframes exBefore exAfter ["id"] ["name", "val"]).toOption.map
        (fun res => res.deleted.rows)
      = some ((exBefore.rows.filter (fun r =>
          !((exAfter.rows.map (rowKeyStr ["id"])).contains (rowKeyStr ["id"] r)))).map
            (fun r => projRow r (["id"] ++ ["name", "val"]))) :=
  ⟨by decide,
   (claimC6_theorem exBefore exAfter ["id"] ["name", "val"] (by decide)).1⟩

/-! ### Claim C4 (modified-pair detection semantics) -/

/-- Before-frame for the overlap counterexample: the same two records
as the after-frame, listed in the opposite order. -/
def swapBefore : DF := ⟨["id", "val"],
  [[("id", Value.vInt 1), ("val", Value.vInt 10)],
   [("id", Value.vInt 2), ("val", Value.vInt 20)]]⟩

/-- After-frame for the overlap counterexample. -/
def swapAfter : DF := ⟨["id", "val"],
  [[("id", Value.vInt 2), ("val", Value.vInt 20)],
   [("id", Value.vInt 1), ("val", Value.vInt 10)]]⟩

/-- Claim C4, counterexample: with compareColumns overlapping
keyColumns (keyColumns [id], compareColumns [id, val]) the duplicated
label makes `row[id]` a duplicate-label sub-Series whose printout
includes the index label of the row, so two matched rows sitting at
different positions are reported modified although the string form of
every compared value is identical between them: here nothing is deleted
or added, yet both record pairs land in the modified outputs. -/
theorem claimC4_counterexample :
    (compare_dataframes swapBefore swapAfter ["id"] ["id", "val"]).toOption.map
        (fun res => (res.deleted.rows.length, res.added.rows.length,
          res.modifiedBefore.rows.length)) = some (0, 0, 2) ∧
    valStr (swapBefore.rows.getD 0 []) "id" = valStr (swapAfter.rows.getD 1 []) "id" ∧
    valStr (swapBefore.rows.getD 0 []) "val" = valStr (swapAfter.rows.getD 1 []) "val" := by
  decide

/-- Claim C4, amended: when the compare selection is disjoint from the
key selection and duplicate-free — which the application guarantees by
offering only non-key columns for the compare selection — the engine
compares, for every common composite key, the first before-row and
first after-row bearing that key field by field over the compare
columns using string-form equality of the scalar values, classifies the
pair as modified exactly when some compared string forms differ, and an
integer 5 against a text 5 stringifies identically, so such a pair
alone is never reported modified.  When a compare column also occurs
among the key columns, the comparison instead operates on duplicate-label
sub-Series printouts that include the row index label and dtype, and
matched rows at different positions are reported modified even when all
compared values agree. -/
theorem claimC4_theorem (b a : DF) (key cmp : List String)
    (h : ValidInput b a key cmp) (hd : ∀ c ∈ cmp, c ∉ key) (hnc : cmp.Nodup) :
    (compare_dataframes b a key cmp).toOption.map (fun res => res.modifiedBefore.rows)
      = some (((commonKeysL b a key).filter (diffAt b a key cmp)).map
          (fun k => projRow (firstRowWith b key k) (key ++ cmp))) ∧
    (compare_dataframes b a key cmp).toOption.map (fun res => res.modifiedAfter.rows)
      = some (((commonKeysL b a key).filter (diffAt b a key cmp)).map
          (fun k => projRow (firstRowWith a key k) (key ++ cmp))) ∧
    (∀ k : String, diffAt b a key cmp k = true ↔
      ∃ c ∈ cmp, valStr (firstRowWith b key k) c ≠ valStr (firstRowWith a key k) c) ∧
    Value.toStr (Value.vInt 5) = Value.toStr (Value.vStr "5") := by
  have hscalar : ∀ c ∈ cmp, ∀ df : DF, ∀ k : String,
      colAccessStr (key ++ cmp) (firstRowIdx df key k)
        (projRow (firstRowWith df key k) (key ++ cmp)) c
      = valStr (firstRowWith df key k) c := by
    intro c hc df k
    unfold colAccessStr
    rw [if_pos]
    · exact valStr_projRow_of_mem _ _ c (List.mem_append.mpr (Or.inr hc))
    · rw [List.count_append]
      have h0 : List.count c key = 0 := List.count_eq_zero.mpr (hd c hc)
      have h1 : List.count c cmp ≤ 1 := List.nodup_iff_count_le_one.mp hnc c
      omega
  refine ⟨?_, ?_, ?_, rfl⟩
  · rw [compare_dataframes_eq b a key cmp h]
    rfl
  · rw [compare_dataframes_eq b a key cmp h]
    rfl
  · intro k
    unfold diffAt hasChanges
    dsimp only
    rw [List.any_eq_true]
    constructor
    · rintro ⟨c, hc, hcc⟩
      refine ⟨c, hc, ?_⟩
      rw [hscalar c hc b k, hscalar c hc a k] at hcc
      simpa using hcc
    · rintro ⟨c, hc, hcc⟩
      refine ⟨c, hc, ?_⟩
      rw [hscalar c hc b k, hscalar c hc a k]
      simpa using hcc

/-- Witness for claim C4 at a concrete input. -/
theorem claimC4_witness :
    ValidInput exBefore exAfter ["id"] ["name", "val"] ∧
    (compare_dataframes exBefore exAfter ["id"] ["name", "val"]).toOption.map
        (fun res => res.modifiedBefore.rows)
      = some (((commonKeysL exBefore exAfter ["id"]).filter
          (diffAt exBefore exAfter ["id"] ["name", "val"])).map
            (fun k => projRow (firstRowWith exBefore ["id"] k)
              (["id"] ++ ["name", "val"]))) :=
  ⟨by decide,
   (claimC4_theorem exBefore exAfter ["id"] ["name", "val"] (by decide)
      (by decide) (by decide)).1⟩

/-! ### Claim C5 (deleted and added outputs) -/

/-- Claim C5, confirmed: the deleted output is exactly the before-rows
whose composite key appears among no after-row key, projected to the
selected columns, in before-row order; the added output is the
symmetric construction from the after-rows. -/
theorem claimC5_theorem (b a : DF) (key cmp : List String)
    (h : ValidInput b a key cmp) :
    (compare_dataframes b a key cmp).toOption.map (fun res => res.deleted)
      = some (specDeleted b a key cmp) ∧
    (compare_dataframes b a key cmp).toOption.map (fun res => res.added)
      = some (specAdded b a key cmp) := by
  rw [compare_dataframes_eq b a key cmp h]
  exact ⟨rfl, rfl⟩

/-- Witness for claim C5 at a concrete input. -/
theorem claimC5_witness :
    ValidInput exBefore exAfter ["id"] ["name", "val"] ∧
    ((compare_dataframes exBefore exAfter ["id"] ["name", "val"]).toOption.map
        (fun res => res.deleted)
      = some (specDeleted exBefore exAfter ["id"] ["name", "val"]) ∧
     (compare_dataframes exBefore exAfter ["id"] ["name", "val"]).toOption.map
        (fun res => res.added)
      = some (specAdded exBefore exAfter ["id"] ["name", "val"])) :=
  ⟨by decide, claimC5_theorem exBefore exAfter ["id"] ["name", "val"] (by decide)⟩

/-! ### Claim C8 (no-op on identical tables) -/

/-- Claim C8, confirmed: reconciling a table with itself yields four
empty outputs, for any valid key and compare selection. -/
theorem claimC8_theorem (t : DF) (key cmp : List String)
    (h : ValidInput t t key cmp) :
    (compare_dataframes t t key cmp).toOption.map
        (fun res => (res.deleted.rows, res.added.rows,
          res.modifiedBefore.rows, res.modifiedAfter.rows))
      = some ([], [], [], []) := by
  rw [compare_dataframes_eq t t key cmp h]
  have hdel : t.rows.filter (fun r =>
      !((t.rows.map (rowKeyStr key)).contains (rowKeyStr key r))) = [] := by
    rw [List.filter_eq_nil_iff]
    intro r hr
    have hmem : rowKeyStr key r ∈ t.rows.map (rowKeyStr key) :=
      List.mem_map.mpr ⟨r, hr, rfl⟩
    simp [List.contains, List.elem_eq_mem, hmem]
  have hdiff : (commonKeysL t t key).filter (diffAt t t key cmp) = [] := by
    rw [List.filter_eq_nil_iff]
    intro k _
    unfold diffAt hasChanges
    simp
  dsimp only [Except.toOption, Option.map, specDeleted, specAdded]
  rw [hdel, hdiff]
  simp

/-- Witness for claim C8 at a concrete input. -/
theorem claimC8_witness :
    ValidInput exBefore exBefore ["id"] ["name", "val"] ∧
    (compare_dataframes exBefore exBefore ["id"] ["name", "val"]).toOption.map
        (fun res => (res.deleted.rows, res.added.rows,
          res.modifiedBefore.rows, res.modifiedAfter.rows))
      = some ([], [], [], []) :=
  ⟨by decide, claimC8_theorem exBefore ["id"] ["name", "val"] (by decide)⟩

/-! ### Claim C9 (alignment of the modified outputs) -/

/-- Claim C9, confirmed: the modified-before and modified-after outputs
have the same number of rows and are row-aligned: position by position
the two rows carry the same composite key. -/
theorem claimC9_theorem (b a : DF) (key cmp : List String)
    (h : ValidInput b a key cmp) :
    (compare_dataframes b a key cmp).toOption.map
        (fun res => res.modifiedBefore.rows.length)
      = (compare_dataframes b a key cmp).toOption.map
        (fun res => res.modifiedAfter.rows.length) ∧
    (compare_dataframes b a key cmp).toOption.map
        (fun res => res.modifiedBefore.rows.map (rowKeyStr key))
      = (compare_dataframes b a key cmp).toOption.map
        (fun res => res.modifiedAfter.rows.map (rowKeyStr key)) := by
  rw [compare_dataframes_eq b a key cmp h]
  constructor
  · dsimp only [Except.toOption, Option.map]
    rw [List.length_map, List.length_map]
  · dsimp only [Except.toOption, Option.map]
    rw [modified_keys_eq_b b a key cmp, modified_keys_eq_a b a key cmp]

/-- Witness for claim C9 at a concrete input. -/
theorem claimC9_witness :
    ValidInput exBefore exAfter ["id"] ["name", "val"] ∧
    (compare_dataframes exBefore exAfter ["id"] ["name", "val"]).toOption.map
        (fun res => res.modifiedBefore.rows.map (rowKeyStr ["id"]))
      = (compare_dataframes exBefore exAfter ["id"] ["name", "val"]).toOption.map
        (fun res => res.modifiedAfter.rows.map (rowKeyStr ["id"])) :=
  ⟨by decide,
   (claimC9_theorem exBefore exAfter ["id"] ["name", "val"] (by decide)).2⟩

/-! ### Claim C10 (no duplicate keys in the modified outputs) -/

/-- The result of the engine on the example frames, used to witness the
theorems that quantify over the returned result. -/
def exResult : CompareResult :=
  (compare_dataframes exBefore exAfter ["id"] ["name", "val"]).toOption.getD
    ⟨⟨[], []⟩, ⟨[], []⟩, ⟨[], []⟩, ⟨[], []⟩, ⟨[], []⟩, ⟨[], []⟩⟩

/-- Claim C10, confirmed: each composite key occurs at most once among
the modified-before rows, and likewise among the modified-after rows:
the common keys are enumerated as a duplicate-free set and each key
contributes at most one pair. -/
theorem claimC10_theorem (b a : DF) (key cmp : List String)
    (h : ValidInput b a key cmp)
    (res : CompareResult) (hres : compare_dataframes b a key cmp = .ok res) :
    (res.modifiedBefore.rows.map (rowKeyStr key)).Nodup ∧
    (res.modifiedAfter.rows.map (rowKeyStr key)).Nodup := by
  rw [compare_dataframes_eq b a key cmp h] at hres
  injection hres with hres
  subst hres
  constructor
  · show ((((commonKeysL b a key).filter (diffAt b a key cmp)).map
        (fun k => projRow (firstRowWith b key k) (key ++ cmp))).map (rowKeyStr key)).Nodup
    rw [modified_keys_eq_b b a key cmp]
    exact List.Nodup.filter _ (commonKeysL_nodup b a key)
  · show ((((commonKeysL b a key).filter (diffAt b a key cmp)).map
        (fun k => projRow (firstRowWith a key k) (key ++ cmp))).map (rowKeyStr key)).Nodup
    rw [modified_keys_eq_a b a key cmp]
    exact List.Nodup.filter _ (commonKeysL_nodup b a key)

/-- Witness for claim C10 at a concrete input. -/
theorem claimC10_witness :
    ValidInput exBefore exAfter ["id"] ["name", "val"] ∧
    (exResult.modifiedBefore.rows.map (rowKeyStr ["id"])).Nodup :=
  ⟨by decide,
   (claimC10_theorem exBefore exAfter ["id"] ["name", "val"] (by decide) exResult
      (by rfl)).1⟩

/-! ### Claim C7 (partition of the rows into three classes) -/

/-- The row, projected to the selected columns, appears in the deleted
output. -/
def inDeleted (res : CompareResult) (key cmp : List String) (r : Row) : Prop :=
  projRow r (key ++ cmp) ∈ res.deleted.rows

/-- The row, projected to the selected columns, appears in the added
output. -/
def inAdded (res : CompareResult) (key cmp : List String) (r : Row) : Prop :=
  projRow r (key ++ cmp) ∈ res.added.rows

/-- The composite key of the row appears among the keys of the
modified-before output rows. -/
def keyModifiedB (res : CompareResult) (key : List String) (r : Row) : Prop :=
  rowKeyStr key r ∈ res.modifiedBefore.rows.map (rowKeyStr key)

/-- The composite key of the row appears among the keys of the
modified-after output rows. -/
def keyModifiedA (res : CompareResult) (key : List String) (r : Row) : Prop :=
  rowKeyStr key r ∈ res.modifiedAfter.rows.map (rowKeyStr key)

/-- The before-row is matched (its key occurs among the after keys) and
the matched pair of first rows shows no difference over the compare
columns. -/
def matchedUnmodB (b a : DF) (key cmp : List String) (r : Row) : Prop :=
  rowKeyStr key r ∈ a.rows.map (rowKeyStr key) ∧
  diffAt b a key cmp (rowKeyStr key r) = false

/-- The after-row is matched (its key occurs among the before keys) and
the matched pair of first rows shows no difference over the compare
columns. -/
def matchedUnmodA (b a : DF) (key cmp : List String) (r : Row) : Prop :=
  rowKeyStr key r ∈ b.rows.map (rowKeyStr key) ∧
  diffAt b a key cmp (rowKeyStr key r) = false

/-- Exactly one of three statements holds. -/
def exactlyOne (P Q R : Prop) : Prop :=
  (P ∨ Q ∨ R) ∧ ¬ (P ∧ Q) ∧ ¬ (P ∧ R) ∧ ¬ (Q ∧ R)

/-- Claim C7, confirmed: every before-row falls into exactly one of the
classes deleted, matched-modified (its key appears in the modified
output) and matched-unmodified, and symmetrically every after-row falls
into exactly one of added, matched-modified and matched-unmodified,
also when several rows of one table share a composite key. -/
theorem claimC7_theorem (b a : DF) (key cmp : List String)
    (h : ValidInput b a key cmp)
    (res : CompareResult) (hres : compare_dataframes b a key cmp = .ok res) :
    (∀ r ∈ b.rows, exactlyOne (inDeleted res key cmp r) (keyModifiedB res key r)
        (matchedUnmodB b a key cmp r)) ∧
    (∀ r ∈ a.rows, exactlyOne (inAdded res key cmp r) (keyModifiedA res key r)
        (matchedUnmodA b a key cmp r)) := by
  rw [compare_dataframes_eq b a key cmp h] at hres
  injection hres with hres
  have e1 : res.deleted.rows = (specDeleted b a key cmp).rows := by rw [← hres]
  have e2 : res.modifiedBefore.rows
      = ((commonKeysL b a key).filter (diffAt b a key cmp)).map
          (fun k => projRow (firstRowWith b key k) (key ++ cmp)) := by rw [← hres]
  have e3 : res.added.rows = (specAdded b a key cmp).rows := by rw [← hres]
  have e4 : res.modifiedAfter.rows
      = ((commonKeysL b a key).filter (diffAt b a key cmp)).map
          (fun k => projRow (firstRowWith a key k) (key ++ cmp)) := by rw [← hres]
  refine ⟨?_, ?_⟩
  · intro r hr
    have hD : inDeleted res key cmp r
        ↔ rowKeyStr key r ∉ a.rows.map (rowKeyStr key) := by
      unfold inDeleted
      rw [e1]
      exact mem_specDeleted_iff b a key cmp r hr
    have hQ : keyModifiedB res key r
        ↔ (rowKeyStr key r ∈ commonKeysL b a key ∧
            diffAt b a key cmp (rowKeyStr key r) = true) := by
      unfold keyModifiedB
      rw [e2, modified_keys_eq_b b a key cmp]
      exact List.mem_filter
    have hC := mem_common_iff_b b a key r hr
    unfold exactlyOne matchedUnmodB
    by_cases hmem : rowKeyStr key r ∈ a.rows.map (rowKeyStr key)
    · cases hdif : diffAt b a key cmp (rowKeyStr key r) with
      | false =>
        refine ⟨Or.inr (Or.inr ⟨hmem, rfl⟩), ?_, ?_, ?_⟩
        · rintro ⟨hp, _⟩
          exact (hD.mp hp) hmem
        · rintro ⟨hp, _⟩
          exact (hD.mp hp) hmem
        · rintro ⟨hq, _⟩
          have hft := (hQ.mp hq).2
          rw [hdif] at hft
          cases hft
      | true =>
        refine ⟨Or.inr (Or.inl (hQ.mpr ⟨hC.mpr hmem, hdif⟩)), ?_, ?_, ?_⟩
        · rintro ⟨hp, _⟩
          exact (hD.mp hp) hmem
        · rintro ⟨hp, _⟩
          exact (hD.mp hp) hmem
        · rintro ⟨_, _, hfd⟩
          exact Bool.noConfusion hfd
    · refine ⟨Or.inl (hD.mpr hmem), ?_, ?_, ?_⟩
      · rintro ⟨_, hq⟩
        exact hmem (hC.mp (hQ.mp hq).1)
      · rintro ⟨_, hm, _⟩
        exact hmem hm
      · rintro ⟨hq, _⟩
        exact hmem (hC.mp (hQ.mp hq).1)
  · intro r hr
    have hD : inAdded res key cmp r
        ↔ rowKeyStr key r ∉ b.rows.map (rowKeyStr key) := by
      unfold inAdded
      rw [e3]
      exact mem_specAdded_iff b a key cmp r hr
    have hQ : keyModifiedA res key r
        ↔ (rowKeyStr key r ∈ commonKeysL b a key ∧
            diffAt b a key cmp (rowKeyStr key r) = true) := by
      unfold keyModifiedA
      rw [e4, modified_keys_eq_a b a key cmp]
      exact List.mem_filter
    have hC := mem_common_iff_a b a key r hr
    unfold exactlyOne matchedUnmodA
    by_cases hmem : rowKeyStr key r ∈ b.rows.map (rowKeyStr key)
    · cases hdif : diffAt b a key cmp (rowKeyStr key r) with
      | false =>
        refine ⟨Or.inr (Or.inr ⟨hmem, rfl⟩), ?_, ?_, ?_⟩
        · rintro ⟨hp, _⟩
          exact (hD.mp hp) hmem
        · rintro ⟨hp, _⟩
          exact (hD.mp hp) hmem
        · rintro ⟨hq, _⟩
          have hft := (hQ.mp hq).2
          rw [hdif] at hft
          cases hft
      | true =>
        refine ⟨Or.inr (Or.inl (hQ.mpr ⟨hC.mpr hmem, hdif⟩)), ?_, ?_, ?_⟩
        · rintro ⟨hp, _⟩
          exact (hD.mp hp) hmem
        · rintro ⟨hp, _⟩
          exact (hD.mp hp) hmem
        · rintro ⟨_, _, hfd⟩
          exact Bool.noConfusion hfd
    · refine ⟨Or.inl (hD.mpr hmem), ?_, ?_, ?_⟩
      · rintro ⟨_, hq⟩
        exact hmem (hC.mp (hQ.mp hq).1)
      · rintro ⟨_, hm, _⟩
        exact hmem hm
      · rintro ⟨hq, _⟩
        exact hmem (hC.mp (hQ.mp hq).1)

/-- Witness for claim C7 at a concrete input and a concrete row. -/
theorem claimC7_witness :
    ValidInput exBefore exAfter ["id"] ["name", "val"] ∧
    exactlyOne (inDeleted exResult ["id"] ["name", "val"] (exBefore.rows.getD 0 []))
      (keyModifiedB exResult ["id"] (exBefore.rows.getD 0 []))
      (matchedUnmodB exBefore exAfter ["id"] ["name", "val"] (exBefore.rows.getD 0 [])) :=
  ⟨by decide,
   (claimC7_theorem exBefore exAfter ["id"] ["name", "val"] (by decide) exResult
      (by rfl)).1 (exBefore.rows.getD 0 []) (by decide)⟩

end CompareExcel
